import Mathlib

/-!
Verification of the nicebot limit-order bot (Go) against its natural-language
specification.  Monetary quantities and prices (Go float64) are embedded as
exact rationals; Unix timestamps and on-chain 6-decimal token units as
integers; time instants as integers (nanosecond precision, which is the
precision of Go time.Time and of the RFC3339Nano wire format).  Fallible
external calls (HTTP, RPC) appear as Option-valued inputs.
-/

namespace NiceBot

/-- Go math.Round: rounds half away from zero.
Embedding of the float64 rounding used by adjustPriceToTick and friends. -/
def goRound (x : ℚ) : ℤ := if 0 ≤ x then ⌊x + 1/2⌋ else -⌊-x + 1/2⌋

/-- The tick defaulting at the head of adjustPriceToTick
(src/unnamed/part_007 lines 89-91): a tick ≤ 0 is replaced by 0.01. -/
def effTick (tick : ℚ) : ℚ := if tick ≤ 0 then 1/100 else tick

/-- The two sequential clamping ifs of adjustPriceToTick
(src/unnamed/part_007 lines 94-99). -/
def seqClamp (x lo hi : ℚ) : ℚ :=
  let x1 := if x < lo then lo else x
  if x1 > hi then hi else x1

/-- adjustPriceToTick (src/unnamed/part_007 lines 87-104): default the tick,
clamp the price to [tick, 1-tick], round to the nearest tick step, and round
the result to 6 decimals to mitigate float drift. -/
def adjustPriceToTick (price tick : ℚ) : ℚ :=
  let t := effTick tick
  let c := seqClamp price t (1 - t)
  let snapped := (goRound (c / t) : ℚ) * t
  ((goRound (snapped * 1000000) : ℚ)) / 1000000

/-- clob.parseTick (src/unnamed/part_004 lines 148-161): the four supported
tick-size strings; anything else is an error (modeled as none). -/
def parseTick (t : String) : Option ℚ :=
  if t = "0.1" then some (1/10)
  else if t = "0.01" then some (1/100)
  else if t = "0.001" then some (1/1000)
  else if t = "0.0001" then some (1/10000)
  else none

/-- clob.priceValid (src/unnamed/part_004 lines 140-146): a price is valid for
a tick-size string when the tick parses and price ∈ [tick, 1 - tick]. -/
def priceValid (price : ℚ) (tick : String) : Bool :=
  match parseTick tick with
  | none => false
  | some t => decide (t ≤ price ∧ price ≤ 1 - t)

section RoundLemmas

theorem goRound_intCast (n : ℤ) : goRound (n : ℚ) = n := by
  unfold goRound
  split
  · rw [Int.floor_int_add]
    norm_num
  · have h : -(n : ℚ) = ((-n : ℤ) : ℚ) := by push_cast; ring
    rw [h, Int.floor_int_add]
    norm_num

theorem goRound_le (x : ℚ) (b : ℤ) (hx : 0 ≤ x) (h : x ≤ (b : ℚ)) :
    goRound x ≤ b := by
  unfold goRound
  rw [if_pos hx]
  have h2 : ⌊x + 1/2⌋ ≤ ⌊(b : ℚ) + 1/2⌋ := Int.floor_le_floor (by linarith)
  have h3 : ⌊(b : ℚ) + 1/2⌋ = b := by rw [Int.floor_int_add]; norm_num
  omega

theorem le_goRound (x : ℚ) (a : ℤ) (ha : (0 : ℚ) ≤ (a : ℚ)) (h : (a : ℚ) ≤ x) :
    a ≤ goRound x := by
  have hx : 0 ≤ x := le_trans ha h
  unfold goRound
  rw [if_pos hx]
  have h2 : ⌊(a : ℚ) + 1/2⌋ ≤ ⌊x + 1/2⌋ := Int.floor_le_floor (by linarith)
  have h3 : ⌊(a : ℚ) + 1/2⌋ = a := by rw [Int.floor_int_add]; norm_num
  omega

theorem seqClamp_mem (x lo hi : ℚ) (h : lo ≤ hi) :
    lo ≤ seqClamp x lo hi ∧ seqClamp x lo hi ≤ hi := by
  simp only [seqClamp, gt_iff_lt]
  split_ifs <;> constructor <;> linarith

theorem effTick_of_pos (t : ℚ) (h : 0 < t) : effTick t = t := by
  unfold effTick
  rw [if_neg (not_le.mpr h)]

/-- The trailing 6-decimal rounding of adjustPriceToTick is the identity on
multiples s/N of a tick 1/N that divides 10^6. -/
theorem finalRound_sdivN (N : ℤ) (hNpos : 0 < N) (hdvd : N ∣ 1000000) (s : ℤ) :
    ((goRound ((s : ℚ) / (N : ℚ) * 1000000) : ℚ)) / 1000000 = (s : ℚ) / (N : ℚ) := by
  obtain ⟨M, hM⟩ := hdvd
  have hN0 : ((N : ℚ)) ≠ 0 := by exact_mod_cast hNpos.ne'
  have hM0 : ((M : ℚ)) ≠ 0 := by
    intro h0
    have hMZ : (M : ℤ) = 0 := by exact_mod_cast h0
    rw [hMZ, mul_zero] at hM
    exact absurd hM (by norm_num)
  have harg : (s : ℚ) / (N : ℚ) * 1000000 = ((s * M : ℤ) : ℚ) := by
    have h6 : ((1000000 : ℚ)) = (N : ℚ) * (M : ℚ) := by exact_mod_cast hM
    push_cast
    field_simp [h6]
    ring
  rw [harg, goRound_intCast]
  have h6 : ((1000000 : ℚ)) = (N : ℚ) * (M : ℚ) := by exact_mod_cast hM
  push_cast
  rw [h6]
  field_simp
  ring

/-- Closed form of adjustPriceToTick for an effective tick 1/N with 2 ≤ N and
N ∣ 10^6: the result is s/N for an integer step count s ∈ [1, N-1]. -/
theorem adjust_closed (N : ℤ) (hN : 2 ≤ N) (hdvd : N ∣ 1000000) (p tq : ℚ)
    (heff : effTick tq = 1 / (N : ℚ)) :
    ∃ s : ℤ, 1 ≤ s ∧ s ≤ N - 1 ∧ adjustPriceToTick p tq = (s : ℚ) / (N : ℚ) := by
  have hNpos : (0 : ℚ) < (N : ℚ) := by exact_mod_cast (by omega : (0:ℤ) < N)
  have hN0 : ((N : ℚ)) ≠ 0 := hNpos.ne'
  have htickpos : (0 : ℚ) < 1 / (N : ℚ) := by positivity
  have hlohi : (1 : ℚ) / (N : ℚ) ≤ 1 - 1 / (N : ℚ) := by
    have h2 : (2 : ℚ) ≤ (N : ℚ) := by exact_mod_cast hN
    have key : (1 : ℚ) - 1 / (N : ℚ) - 1 / (N : ℚ) = ((N : ℚ) - 2) / (N : ℚ) := by
      field_simp
      ring
    have hge : (0 : ℚ) ≤ ((N : ℚ) - 2) / (N : ℚ) :=
      div_nonneg (by linarith) (by linarith)
    linarith
  set c := seqClamp p (1 / (N : ℚ)) (1 - 1 / (N : ℚ)) with hc
  obtain ⟨hclo, hchi⟩ := seqClamp_mem p (1 / (N : ℚ)) (1 - 1 / (N : ℚ)) hlohi
  have hdiv : c / (1 / (N : ℚ)) = c * (N : ℚ) := by
    field_simp
  have hstep_lo : (1 : ℚ) ≤ c * (N : ℚ) := by
    rw [div_le_iff₀ hNpos] at hclo
    linarith
  have hstep_hi : c * (N : ℚ) ≤ ((N - 1 : ℤ) : ℚ) := by
    have : c ≤ ((N : ℚ) - 1) / (N : ℚ) := by
      have hr : (1 : ℚ) - 1 / (N : ℚ) = ((N : ℚ) - 1) / (N : ℚ) := by
        field_simp
      linarith [hr ▸ hchi]
    rw [le_div_iff₀ hNpos] at this
    push_cast
    linarith
  set s := goRound (c * (N : ℚ)) with hs
  have hs1 : 1 ≤ s :=
    le_goRound (c * (N : ℚ)) 1 (by norm_num) (by exact_mod_cast hstep_lo)
  have hs2 : s ≤ N - 1 :=
    goRound_le (c * (N : ℚ)) (N - 1) (by linarith) hstep_hi
  refine ⟨s, hs1, hs2, ?_⟩
  show (let t := effTick tq
        let cc := seqClamp p t (1 - t)
        let snapped := (goRound (cc / t) : ℚ) * t
        ((goRound (snapped * 1000000) : ℚ)) / 1000000) = (s : ℚ) / (N : ℚ)
  simp only [heff]
  rw [← hc, hdiv, ← hs]
  have hsnap : (s : ℚ) * (1 / (N : ℚ)) = (s : ℚ) / (N : ℚ) := by ring
  rw [hsnap]
  exact finalRound_sdivN N (by omega) hdvd s

/-- adjustPriceToTick fixes every on-grid price s/N with s ∈ [1, N-1]. -/
theorem adjust_fixed (N : ℤ) (hN : 2 ≤ N) (hdvd : N ∣ 1000000) (s : ℤ)
    (h1 : 1 ≤ s) (h2 : s ≤ N - 1) (tq : ℚ) (heff : effTick tq = 1 / (N : ℚ)) :
    adjustPriceToTick ((s : ℚ) / (N : ℚ)) tq = (s : ℚ) / (N : ℚ) := by
  have hNpos : (0 : ℚ) < (N : ℚ) := by exact_mod_cast (by omega : (0:ℤ) < N)
  have hN0 : ((N : ℚ)) ≠ 0 := hNpos.ne'
  have hclamp : seqClamp ((s : ℚ) / (N : ℚ)) (1 / (N : ℚ)) (1 - 1 / (N : ℚ))
      = (s : ℚ) / (N : ℚ) := by
    unfold seqClamp
    have hs1 : (1 : ℚ) ≤ (s : ℚ) := by exact_mod_cast h1
    have hlo : ¬ ((s : ℚ) / (N : ℚ) < 1 / (N : ℚ)) := by
      rw [not_lt, div_le_div_iff_of_pos_right hNpos]
      exact hs1
    have hhi : ¬ ((s : ℚ) / (N : ℚ) > 1 - 1 / (N : ℚ)) := by
      rw [not_lt]
      have hr : (1 : ℚ) - 1 / (N : ℚ) = ((N : ℚ) - 1) / (N : ℚ) := by field_simp
      rw [hr, div_le_div_iff_of_pos_right hNpos]
      have : (s : ℚ) ≤ ((N - 1 : ℤ) : ℚ) := by exact_mod_cast h2
      push_cast at this
      linarith
    rw [if_neg hlo, if_neg hhi]
  show (let t := effTick tq
        let cc := seqClamp ((s : ℚ) / (N : ℚ)) t (1 - t)
        let snapped := (goRound (cc / t) : ℚ) * t
        ((goRound (snapped * 1000000) : ℚ)) / 1000000) = (s : ℚ) / (N : ℚ)
  simp only [heff]
  rw [hclamp]
  have hdiv : (s : ℚ) / (N : ℚ) / (1 / (N : ℚ)) = (s : ℚ) := by
    field_simp
  rw [hdiv, goRound_intCast]
  have hsnap : (s : ℚ) * (1 / (N : ℚ)) = (s : ℚ) / (N : ℚ) := by ring
  rw [hsnap]
  exact finalRound_sdivN N (by omega) hdvd s

/-- Idempotence for a tick 1/N with 2 ≤ N, N ∣ 10^6. -/
theorem adjust_idem_unit (N : ℤ) (hN : 2 ≤ N) (hdvd : N ∣ 1000000) (p tq : ℚ)
    (heff : effTick tq = 1 / (N : ℚ)) :
    adjustPriceToTick (adjustPriceToTick p tq) tq = adjustPriceToTick p tq := by
  obtain ⟨s, h1, h2, heq⟩ := adjust_closed N hN hdvd p tq heff
  rw [heq, adjust_fixed N hN hdvd s h1 h2 tq heff]

end RoundLemmas

/-! ## Order records and persistence (models.go, persist.go) -/

/-- models.OrderRecord (src/internal/models/models.go lines 51-73).
OrderSide and OrderStatus are Go string types and stay strings here.
CreatedAt/FilledAt are time instants (nanoseconds). -/
structure OrderRecord where
  orderID : String
  marketSlug : String
  conditionID : String
  tokenID : String
  outcome : String
  side : String
  price : ℚ
  size : ℚ
  sizeUSD : ℚ
  status : String
  sizeMatched : Option ℚ
  createdAt : ℤ
  filledAt : Option ℤ
  errorMessage : Option String
  strategy : Option String
  transactionType : String
  revenueUSD : Option ℚ
  costUSD : Option ℚ
  pnlUSD : Option ℚ
  deriving DecidableEq, Repr

/-- The JSON object written by serializeOrder (src/internal/bot/persist.go
lines 178-210), with the value types it actually carries: strings, floats,
nullable floats/strings, and RFC3339Nano-formatted instants.  RFC3339Nano
formatting and parsing are mutually inverse at nanosecond precision, so an
instant field is carried as the instant itself. -/
structure SerializedOrder where
  order_id : String
  market_slug : String
  condition_id : String
  token_id : String
  outcome : String
  side : String
  price : ℚ
  size : ℚ
  size_usd : ℚ
  status : String
  size_matched : Option ℚ
  created_at : ℤ
  filled_at : Option ℤ
  error_message : Option String
  strategy : Option String
  transaction_type : String
  revenue_usd : Option ℚ
  cost_usd : Option ℚ
  pnl_usd : Option ℚ
  deriving DecidableEq, Repr

/-- serializeOrder (src/internal/bot/persist.go lines 178-210): every field of
the record is written out, including revenue_usd, cost_usd and pnl_usd. -/
def serializeOrder (o : OrderRecord) : SerializedOrder :=
  { order_id := o.orderID
    market_slug := o.marketSlug
    condition_id := o.conditionID
    token_id := o.tokenID
    outcome := o.outcome
    side := o.side
    price := o.price
    size := o.size
    size_usd := o.sizeUSD
    status := o.status
    size_matched := o.sizeMatched
    created_at := o.createdAt
    filled_at := o.filledAt
    error_message := o.errorMessage
    strategy := o.strategy
    transaction_type := o.transactionType
    revenue_usd := o.revenueUSD
    cost_usd := o.costUSD
    pnl_usd := o.pnlUSD }

/-- parseOrderRecord (src/internal/bot/persist.go lines 212-271).
created_at: time.Parse is the inverse of Format, and the IsZero retry
re-parses the same string, so the instant is carried through unchanged.
filled_at: a nil value stringifies to "&lt;nil&gt;" and is skipped; a parsed
zero time (!t.IsZero() false) is also skipped.  error_message / strategy:
non-nil values equal to the empty string or to the literal text produced by
stringifying nil are dropped.  The struct literal at lines 252-269 never
assigns RevenueUSD, CostUSD or PNLUSD, so they keep the Go zero value nil. -/
def parseOrderRecord (m : SerializedOrder) : OrderRecord :=
  let filledAt : Option ℤ :=
    match m.filled_at with
    | none => none
    | some t => if t = 0 then none else some t
  let errMsg : Option String :=
    match m.error_message with
    | none => none
    | some s => if s = "" ∨ s = "<nil>" then none else some s
  let strat : Option String :=
    match m.strategy with
    | none => none
    | some s => if s = "" ∨ s = "<nil>" then none else some s
  { orderID := m.order_id
    marketSlug := m.market_slug
    conditionID := m.condition_id
    tokenID := m.token_id
    outcome := m.outcome
    side := m.side
    price := m.price
    size := m.size
    sizeUSD := m.size_usd
    status := m.status
    sizeMatched := m.size_matched
    createdAt := m.created_at
    filledAt := filledAt
    errorMessage := errMsg
    strategy := strat
    transactionType := m.transaction_type
    revenueUSD := none
    costUSD := none
    pnlUSD := none }

/-- A persisted BUY order with live accounting fields, as produced by
orderRecordForSide (cost_usd = size_usd, revenue_usd = 0, pnl_usd =
-size_usd). -/
def sampleBuyOrder : OrderRecord :=
  { orderID := "0xorder1"
    marketSlug := "btc-updown-15m-1700000000"
    conditionID := "0xcond1"
    tokenID := "123456"
    outcome := "Up"
    side := "BUY"
    price := 49/100
    size := 2041/100
    sizeUSD := 5
    status := "PLACED"
    sizeMatched := none
    createdAt := 1700000000123456789
    filledAt := none
    errorMessage := none
    strategy := some "quick_exit_7_5min"
    transactionType := "BUY"
    revenueUSD := some 0
    costUSD := some 5
    pnlUSD := some (-5) }

/-! ## Post-submission verification (src/unnamed/part_007 lines 234-269) -/

/-- JSON values as decoded by encoding/json into Go `any`. -/
inductive JVal where
  | jstr (s : String)
  | jnum (q : ℚ)
  | jbool (b : Bool)
  | jnull
  | jarr (xs : List JVal)
  | jobj (fields : List (String × JVal))

/-- Go map indexing m[k] on a decoded JSON object: none for an absent key
(Go yields a nil interface value). -/
def jget (fields : List (String × JVal)) (k : String) : Option JVal :=
  (fields.find? (fun p => p.1 = k)).map (fun p => p.2)

/-- asString (src/unnamed/part_008 lines 590-597): a string is returned as
is; anything else goes through fmt %v formatting.  A nil interface (absent
key or JSON null) formats as the five characters &lt;nil&gt;.  The remaining
branches stand for Go %v rendering of numbers, booleans and composites; the
only property used of them is their exact text on the inputs exercised. -/
def goAsString : Option JVal → String
  | some (.jstr s) => s
  | some (.jnum q) => toString q
  | some (.jbool b) => if b then "true" else "false"
  | some (.jarr _) => "[array]"
  | some (.jobj _) => "[object]"
  | some .jnull => "<nil>"
  | none => "<nil>"

/-- asBool (src/unnamed/part_008 lines 616-625). -/
def goAsBool : Option JVal → Bool
  | some (.jbool b) => b
  | some (.jstr s) => s.toLower = "true"
  | _ => false

/-- The active-id set built by verifyOrdersInOrderbook from the exchange's
open orders (src/unnamed/part_007 lines 240-246): each open order is
consulted only for its id field o["id"], and empty ids are skipped. -/
def activeIds (openOrders : List (Option JVal)) : List String :=
  (openOrders.map goAsString).filter (fun id => id ≠ "")

/-- verifyOrdersInOrderbook (src/unnamed/part_007 lines 234-269).  The first
argument is the GetOrders result: none models a transport error (the Go code
returns the batch unchanged), some gives each open order's id field.  An
order found in the active set becomes PLACED with the error cleared; a
missing order becomes FAILED with size, size_usd, cost_usd, revenue_usd and
pnl_usd zeroed and a diagnostic preserved or set. -/
def verifyOrdersInOrderbook (fetched : Option (List (Option JVal)))
    (orders : List OrderRecord) : List OrderRecord :=
  match fetched with
  | none => orders
  | some openOrders =>
    let active := activeIds openOrders
    orders.map (fun o =>
      if o.orderID ∈ active then
        { o with status := "PLACED", errorMessage := none }
      else
        { o with status := "FAILED", size := 0, sizeUSD := 0
                 costUSD := some 0, revenueUSD := some 0, pnlUSD := some 0
                 errorMessage :=
                   match o.errorMessage with
                   | none => some "Order not found in orderbook after placement"
                   | some msg => some msg })

/-! ## Liquidity placement balance precheck
(src/unnamed/part_007 lines 20-33, src/internal/bot/liquidity.go 20-33) -/

/-- The environment read by the head of placeLiquidityOrders before any
order is submitted. -/
structure LiquidityEnv where
  clobInitialized : Bool
  address : String
  usdcBalance : ℚ
  orderSizeUSD : ℚ
  deriving DecidableEq, Repr

/-- The outcome of the prechecks at the head of placeLiquidityOrders: the
three early error returns, or control reaching the price-filling and
per-outcome submission loop. -/
inductive LiquidityPrecheck where
  | errClobNotInitialized
  | errNoWallet
  | errInsufficientBalance
  | proceed
  deriving DecidableEq, Repr

/-- The guard sequence of placeLiquidityOrders (both copies are identical
here): nil client, empty wallet address, then the balance check
`bal > 0 && bal < OrderSizeUSD * 2` (the USDCBalance error is discarded, so
a failed fetch reads as balance 0 and passes). -/
def placeLiquidityOrdersPrecheck (env : LiquidityEnv) : LiquidityPrecheck :=
  if env.clobInitialized = false then .errClobNotInitialized
  else if env.address = "" then .errNoWallet
  else
    let required := env.orderSizeUSD * 2
    if 0 < env.usdcBalance ∧ env.usdcBalance < required then .errInsufficientBalance
    else .proceed

/-! ## Periodic merge (src/unnamed/part_006 lines 19-58, strategy.go 108-130) -/

/-- Go int64(x) float-to-int conversion: truncation toward zero. -/
def truncInt64 (q : ℚ) : ℤ := if 0 ≤ q then ⌊q⌋ else -⌊-q⌋

/-- toFloat6 (src/unnamed/part_006 lines 225-229): raw ERC-1155 units to
decimal, dividing by 10^6. -/
def toFloat6 (v : ℤ) : ℚ := (v : ℚ) / 1000000

/-- Inputs consumed by one run of mergePositionsIfPossible: the inferred
outcome token ids, the two ERC1155BalanceOf results (none = RPC error, raw
6-decimal units otherwise), the current mergedAmounts[cid] (a missing key
reads 0), and whether ConditionIDFromHex and the MergePositions transaction
succeed. -/
structure MergeEnv where
  yesToken : String
  noToken : String
  yesBal : Option ℤ
  noBal : Option ℤ
  mergedAlready : ℚ
  conditionIDOk : Bool
  mergeTxOk : Bool
  deriving DecidableEq, Repr

/-- What one run of mergePositionsIfPossible did: its return value, the
units argument passed to chain.MergePositions when the call was made, and
the value of mergedAmounts[cid] afterwards. -/
structure MergeOutcome where
  merged : ℚ
  callUnits : Option ℤ
  mergedAmountsAfter : ℚ
  deriving DecidableEq, Repr

/-- mergePositionsIfPossible (src/unnamed/part_006 lines 19-58): bail out on
missing tokens, RPC errors, non-positive balances, a mergeable remainder
≤ 0.001, or an invalid condition id; otherwise call MergePositions with
int64(mergeAmt*1e6) units and, on success, add mergeAmt to
mergedAmounts[cid] and return it. -/
def mergePositionsIfPossible (env : MergeEnv) : MergeOutcome :=
  if env.yesToken = "" ∨ env.noToken = "" then ⟨0, none, env.mergedAlready⟩
  else
    match env.yesBal with
    | none => ⟨0, none, env.mergedAlready⟩
    | some yb =>
      match env.noBal with
      | none => ⟨0, none, env.mergedAlready⟩
      | some nb =>
        let yes := toFloat6 yb
        let noQ := toFloat6 nb
        if yes ≤ 0 ∨ noQ ≤ 0 then ⟨0, none, env.mergedAlready⟩
        else
          let mergeable := min yes noQ
          let mergeAmt := mergeable - env.mergedAlready
          if mergeAmt ≤ 1/1000 then ⟨0, none, env.mergedAlready⟩
          else if env.conditionIDOk = false then ⟨0, none, env.mergedAlready⟩
          else
            let units := truncInt64 (mergeAmt * 1000000)
            if env.mergeTxOk = false then ⟨0, some units, env.mergedAlready⟩
            else ⟨mergeAmt, some units, env.mergedAlready + mergeAmt⟩

/-- trackMerge (src/internal/bot/strategy.go lines 108-130): the synthetic
MERGE history record appended after a successful merge of `merged` units. -/
def trackMerge (conditionID marketSlug : String) (merged : ℚ) (nowSec : ℤ) :
    OrderRecord :=
  { orderID := "MERGE-" ++ conditionID.take 16 ++ "-" ++ toString nowSec
    marketSlug := marketSlug
    conditionID := conditionID
    tokenID := ""
    outcome := "MERGE"
    side := "SELL"
    price := 1
    size := merged
    sizeUSD := merged
    status := "FILLED"
    sizeMatched := none
    createdAt := nowSec
    filledAt := some nowSec
    errorMessage := none
    strategy := none
    transactionType := "MERGE"
    revenueUSD := some merged
    costUSD := some 0
    pnlUSD := some merged }

/-! ## Markets and the discovery filter (models.go, src/unnamed/part_008) -/

/-- models.Outcome (src/internal/models/models.go lines 25-31). -/
structure Outcome where
  tokenID : String
  outcome : String
  price : Option ℚ
  bestBid : Option ℚ
  bestAsk : Option ℚ
  deriving DecidableEq, Repr

/-- models.Market (src/internal/models/models.go lines 33-42). -/
structure Market where
  conditionID : String
  marketSlug : String
  question : String
  startTS : ℤ
  endTS : ℤ
  outcomes : List Outcome
  isActive : Bool
  isResolved : Bool
  deriving DecidableEq, Repr

/-- The per-market keep test inside filterUpcoming (src/unnamed/part_008
lines 286-299): resolved markets are skipped, and the window test is
timeUntilEnd > -300 (strict) and timeUntilStart ≤ 86400. -/
def filterUpcomingKeep (m : Market) (nowTs : ℤ) : Bool :=
  if m.isResolved then false
  else
    let timeUntilStart := m.startTS - nowTs
    let timeUntilEnd := m.endTS - nowTs
    decide (timeUntilEnd > -300 ∧ timeUntilStart ≤ 86400)

/-- filterUpcoming (src/unnamed/part_008 lines 282-306), restricted to its
returned list: the kept markets sorted by startTS ascending (Go sort.Slice
with a strict-less comparator; the tie order is unspecified there and
irrelevant to membership).  The function also registers new kept markets in
trackedMarkets with ordersPlaced[cid] = false, which is modeled in the
supervisor step below. -/
def filterUpcoming (markets : List Market) (nowTs : ℤ) : List Market :=
  (markets.filter (fun m => filterUpcomingKeep m nowTs)).mergeSort
    (fun a b => a.startTS ≤ b.startTS)

/-- A market sitting exactly on the end_ts = now - 300 boundary at
now = 1700000000. -/
def boundaryMarket : Market :=
  { conditionID := "0xcondBoundary"
    marketSlug := "btc-updown-15m-1699999400"
    question := "Bitcoin Up or Down"
    startTS := 1699999400
    endTS := 1699999700
    outcomes := []
    isActive := true
    isResolved := false }

/-! ## Market-source parsing (src/internal/logging/logging.go, gamma) -/

/-- The two Go standard-library calls reached from parseMarket, supplied as
oracles: time.Parse (layout, value) returning unix seconds on success, and
json.Unmarshal of a string into a []any.  Everything else in parseMarket is
repository code and is embedded concretely. -/
structure GoLib where
  timeParse : String → String → Option ℤ
  jsonArr : String → Option (List JVal)

/-- parseInt64 (src/internal/logging/logging.go lines 297-306): hand-rolled
digit parser; any non-digit character is an error (note: the empty string
parses to 0). -/
def parseInt64 (s : String) : Option ℤ :=
  s.data.foldl
    (fun acc ch =>
      match acc with
      | none => none
      | some n =>
        if ch < '0' ∨ '9' < ch then none
        else some (n * 10 + ((ch.toNat : ℤ) - 48)))
    (some 0)

/-- Whether the first character list starts with the second. -/
def charsStartsWith : List Char → List Char → Bool
  | _, [] => true
  | [], _ => false
  | c :: cs, d :: ds => c = d && charsStartsWith cs ds

/-- Substring occurrence over character lists. -/
def charsContains (s sub : List Char) : Bool :=
  match s, sub with
  | _, [] => true
  | [], _ => false
  | c :: cs, _ => charsStartsWith (c :: cs) sub || charsContains cs sub

/-- strings.Contains (the source strings are ASCII, so Go's byte-wise scan
and this rune-wise scan agree). -/
def goContains (s sub : String) : Bool := charsContains s.data sub.data

/-- The scanning loop of strings.Split: cut at each leftmost non-overlapping
occurrence of sep.  The fuel argument (instantiated with the input length,
which the loop never exhausts) only makes the recursion structural. -/
def splitAuxF (sep : List Char) : ℕ → List Char → List Char → List (List Char)
  | _, [], acc => [acc.reverse]
  | 0, rest, acc => [acc.reverse ++ rest]
  | fuel + 1, c :: cs, acc =>
    if charsStartsWith (c :: cs) sep then
      acc.reverse :: splitAuxF sep fuel (List.drop sep.length (c :: cs)) []
    else splitAuxF sep fuel cs (c :: acc)

/-- strings.Split: an empty separator splits into individual runes,
otherwise the string is cut around every occurrence of the separator. -/
def goSplit (s sep : String) : List String :=
  if sep = "" then s.data.map (fun c => String.mk [c])
  else (splitAuxF sep.data s.data.length s.data []).map String.mk

/-- strings.ToLower (rune-wise, which agrees with Go on ASCII). -/
def goToLower (s : String) : String := String.mk (s.data.map Char.toLower)

/-- parseISO (src/internal/logging/logging.go lines 308-323): empty string
gives 0; otherwise replace Z by +00:00 and try time.Parse with the RFC3339
layout, then with the explicit-offset layout; 0 on failure. -/
def parseISO (lib : GoLib) (s : String) : ℤ :=
  if s = "" then 0
  else
    let s2 := s.replace "Z" "+00:00"
    match lib.timeParse "2006-01-02T15:04:05Z07:00" s2 with
    | some t => t
    | none =>
      match lib.timeParse "2006-01-02T15:04:05-07:00" s2 with
      | some t => t
      | none => 0

/-- extractStartEnd (src/internal/logging/logging.go lines 187-208): a slug
containing btc-updown-15m- (case-insensitively) yields start from the digits
after the last occurrence and end = start + 900; otherwise the ISO date
fields of the market object and then of the event are consulted. -/
def extractStartEnd (lib : GoLib) (slug : String)
    (actual event : List (String × JVal)) : ℤ × ℤ :=
  let isoFallback : ℤ × ℤ :=
    let s0 := parseISO lib (goAsString (jget actual "startDate"))
    let startTS := if s0 = 0 then parseISO lib (goAsString (jget event "start_date")) else s0
    let e0 := parseISO lib (goAsString (jget actual "endDate"))
    let endTS := if e0 = 0 then parseISO lib (goAsString (jget event "end_date")) else e0
    (startTS, endTS)
  if goContains (goToLower slug) "btc-updown-15m-" then
    let parts := goSplit slug "btc-updown-15m-"
    if parts.length > 1 then
      let rest := parts.getLastD ""
      let tsStr := (goSplit rest "-").headD ""
      match parseInt64 tsStr with
      | some ts => (ts, ts + 15 * 60)
      | none => isoFallback
    else isoFallback
  else isoFallback

/-- One entry of a tokens array (src/internal/logging/logging.go lines
245-262): a non-object entry leaves the Go map nil, whose lookups stringify
to &lt;nil&gt;. -/
def tokenEntry (tok : JVal) : Outcome :=
  match tok with
  | .jobj f =>
    { tokenID := goAsString (jget f "token_id")
      outcome := goAsString (jget f "outcome")
      price := none, bestBid := none, bestAsk := none }
  | _ =>
    { tokenID := goAsString none
      outcome := goAsString none
      price := none, bestBid := none, bestAsk := none }

/-- parseOutcomes (src/internal/logging/logging.go lines 210-264):
clobTokenIds (JSON-encoded string or array) paired with outcomes names
(defaulting to Up/Down), else the tokens arrays of the event and then of the
market object, both appended. -/
def parseOutcomes (lib : GoLib) (actual event : List (String × JVal)) :
    List Outcome :=
  let fromClob : List Outcome :=
    match jget actual "clobTokenIds" with
    | none => []
    | some .jnull => []
    | some raw =>
      let tokenIDs : List JVal :=
        match raw with
        | .jstr t => (lib.jsonArr t).getD []
        | .jarr xs => xs
        | _ => []
      let outcomeNames0 : List JVal :=
        match jget actual "outcomes" with
        | some (.jstr t) => (lib.jsonArr t).getD []
        | some (.jarr xs) => xs
        | _ => []
      let outcomeNames :=
        if outcomeNames0.length = 0 then [JVal.jstr "Up", JVal.jstr "Down"]
        else outcomeNames0
      tokenIDs.enum.map (fun p =>
        let name :=
          if h : p.1 < outcomeNames.length then goAsString (some outcomeNames[p.1])
          else "Outcome" ++ toString p.1
        { tokenID := goAsString (some p.2), outcome := name
          price := none, bestBid := none, bestAsk := none })
  if fromClob.length > 0 then fromClob
  else
    let fromEventToks :=
      match jget event "tokens" with
      | some (.jarr toks) => toks.map tokenEntry
      | _ => []
    let fromActualToks :=
      match jget actual "tokens" with
      | some (.jarr toks) => toks.map tokenEntry
      | _ => []
    fromEventToks ++ fromActualToks

/-- parseMarket (src/internal/logging/logging.go lines 127-185).  When the
event has a markets array whose first entry is an object, slug comes from
the event and question/conditionId from that entry; otherwise (including
when markets[0] is not an object, in which case the Go code overwrites every
previously assigned local) the event itself is the market object, with
condition_id / market_slug / title fallbacks.  The emptiness checks then
gate on the stringified values, and a zero start or end timestamp drops the
market. -/
def parseMarket (lib : GoLib) (ev : List (String × JVal)) : Option Market :=
  let viaMarkets : Option (List (String × JVal)) :=
    match jget ev "markets" with
    | some (.jarr (first :: _)) =>
      match first with
      | .jobj fm => some fm
      | _ => none
    | _ => none
  let fields : (List (String × JVal)) × String × String × String :=
    match viaMarkets with
    | some fm =>
      let slug := goAsString (jget ev "slug")
      let q0 := goAsString (jget fm "question")
      let q := if q0 = "" then goAsString (jget ev "title") else q0
      (fm, slug, q, goAsString (jget fm "conditionId"))
    | none =>
      let cid0 := goAsString (jget ev "conditionId")
      let cid := if cid0 = "" then goAsString (jget ev "condition_id") else cid0
      let slug0 := goAsString (jget ev "slug")
      let slug := if slug0 = "" then goAsString (jget ev "market_slug") else slug0
      let q0 := goAsString (jget ev "question")
      let q := if q0 = "" then goAsString (jget ev "title") else q0
      (ev, slug, q, cid)
  let actual := fields.1
  let marketSlug := fields.2.1
  let question := fields.2.2.1
  let conditionID := fields.2.2.2
  if conditionID = "" ∨ marketSlug = "" ∨ question = "" then none
  else
    let se := extractStartEnd lib marketSlug actual ev
    if se.1 = 0 ∨ se.2 = 0 then none
    else
      some { conditionID := conditionID
             marketSlug := marketSlug
             question := question
             startTS := se.1
             endTS := se.2
             outcomes := parseOutcomes lib actual ev
             isActive := goAsBool (jget ev "active")
             isResolved := goAsBool (jget ev "closed") || goAsBool (jget ev "resolved") }

/-- An upstream event carrying slug and question but no conditionId (and no
condition_id): per the spec this market must be dropped. -/
def eventMissingConditionID : List (String × JVal) :=
  [("slug", .jstr "btc-updown-15m-1700000000"), ("question", .jstr "q")]

/-! ## Supervisor placement idempotence (src/unnamed/part_008 RunOnce,
work.go / fallback_liquidity.go fallbacks, housekeeping.go)

The placement-relevant slice of the supervisor, as a transition system over
the tracked-market set and the ordersPlaced flag set, with one counter of
record-producing placement episodes per condition id.  External behaviour
(discovery results, the placement window, the busy check, strategy
submission results, orphan refreshes, housekeeping) enters through a
per-tick oracle; guards that merely prevent an episode (window, busy) are
absorbed into the oracle's placement outcome, which makes the model an
over-approximation of the Go control flow, while the guards the idempotence
rests on (the ordersPlaced checks and updates, registration only of
untracked markets, orphan clearing only of untracked groups) are kept
verbatim.  In every Go strategy (placeLiquidityOrders, executeSplitStrategy,
placeSimpleTestOrders) an exchange submission always appends a record to the
returned batch and an error return happens only before any submission, so
at most one record-producing episode per cid implies at most one submission
episode per cid. -/

/-- The result RunOnce sees from a strategy call: an error (which includes
every skipped attempt), or a batch of n order records.  RunOnce sets
ordersPlaced[cid] iff n > 0. -/
inductive PlaceOutcome where
  | err
  | records (n : ℕ)

/-- The placement-relevant supervisor state: trackedMarkets domain,
the set of cids with ordersPlaced = true, and the episode counter. -/
structure SupState where
  tracked : List String
  placed : List String
  episodes : String → ℕ

/-- The external events of one RunOnce tick. -/
structure TickOracle where
  discovered : List String
  place : String → PlaceOutcome
  orphanClear : List String
  fbCandidate : Option String
  fbPlace : String → PlaceOutcome
  cleanupRemove : List String

/-- filterUpcoming registration (src/unnamed/part_008 lines 294-298): a kept
market not yet tracked is added to trackedMarkets with
ordersPlaced[cid] = false. -/
def registerOne (st : SupState) (cid : String) : SupState :=
  if cid ∈ st.tracked then st
  else
    { st with
      tracked := cid :: st.tracked
      placed := st.placed.filter (fun c => c ≠ cid) }

/-- The step-2 loop body of RunOnce (src/unnamed/part_008 lines 201-241) for
one market: skip when ordersPlaced[cid]; otherwise the strategy call either
errors (recordError; continue) or returns records, and a non-empty batch
sets ordersPlaced[cid]. -/
def placeStep (o : TickOracle) (st : SupState) (cid : String) : SupState :=
  if cid ∈ st.placed then st
  else
    match o.place cid with
    | .err => st
    | .records n =>
      if n = 0 then st
      else
        { st with
          placed := cid :: st.placed
          episodes := fun c => if c = cid then st.episodes c + 1 else st.episodes c }

/-- clearOrphanGroup (src/internal/bot/housekeeping.go lines 155-162),
reached from checkActiveOrders only for groups without a tracked market:
it deletes the ordersPlaced entry. -/
def orphanClearStep (st : SupState) (cid : String) : SupState :=
  if cid ∈ st.tracked then st
  else { st with placed := st.placed.filter (fun c => c ≠ cid) }

/-- The fallback placement (work.go placeFallbackOrdersIfIdle lines 85-132
and fallback_liquidity.go lines 11-57): the candidate is scanned out of the
same upcoming list, skipping markets with ordersPlaced[cid] set, and a
non-empty batch sets the flag. -/
def fallbackStep (o : TickOracle) (st : SupState) : SupState :=
  match o.fbCandidate with
  | none => st
  | some cid =>
    if cid ∈ o.discovered then
      if cid ∈ st.placed then st
      else
        match o.fbPlace cid with
        | .err => st
        | .records n =>
          if n = 0 then st
          else
            { st with
              placed := cid :: st.placed
              episodes := fun c => if c = cid then st.episodes c + 1 else st.episodes c }
    else st

/-- cleanupOldMarkets (src/internal/bot/housekeeping.go lines 12-47): a
retired market is deleted from trackedMarkets and its ordersPlaced entry is
dropped with it. -/
def cleanupStep (st : SupState) (cid : String) : SupState :=
  { st with
    tracked := st.tracked.filter (fun c => c ≠ cid)
    placed := st.placed.filter (fun c => c ≠ cid) }

/-- One RunOnce tick, phases in source order: discovery registration,
the placement loop, orphan clearing inside checkActiveOrders, the idle
fallback, housekeeping. -/
def tick (st : SupState) (o : TickOracle) : SupState :=
  let st1 := o.discovered.foldl registerOne st
  let st2 := o.discovered.foldl (placeStep o) st1
  let st3 := o.orphanClear.foldl orphanClearStep st2
  let st4 := fallbackStep o st3
  o.cleanupRemove.foldl cleanupStep st4

/-- A whole process lifetime after the initial load: a sequence of ticks. -/
def runTicks (st : SupState) (os : List TickOracle) : SupState :=
  os.foldl tick st

section PlacementIdempotence

/-- The inductive invariant: at most one episode so far, and once an episode
happened the flag is set and the market is tracked. -/
def PlacementInv (cid : String) (st : SupState) : Prop :=
  st.episodes cid ≤ 1 ∧ (1 ≤ st.episodes cid → cid ∈ st.placed ∧ cid ∈ st.tracked)

theorem registerOne_episodes (st : SupState) (c : String) :
    (registerOne st c).episodes = st.episodes := by
  unfold registerOne
  split <;> rfl

theorem registerAll_episodes (l : List String) (st : SupState) :
    (l.foldl registerOne st).episodes = st.episodes := by
  induction l generalizing st with
  | nil => rfl
  | cons c l ih => simp only [List.foldl_cons, ih, registerOne_episodes]

theorem registerOne_keeps (st : SupState) (c cid : String)
    (h : cid ∈ st.tracked) (hp : cid ∈ st.placed) :
    cid ∈ (registerOne st c).tracked ∧ cid ∈ (registerOne st c).placed := by
  unfold registerOne
  split
  · exact ⟨h, hp⟩
  · rename_i hnot
    refine ⟨List.mem_cons_of_mem _ h, ?_⟩
    refine List.mem_filter.mpr ⟨hp, ?_⟩
    have : c ≠ cid := fun he => hnot (he ▸ h)
    simp [this.symm]

theorem registerAll_keeps (l : List String) (st : SupState) (cid : String)
    (h : cid ∈ st.tracked) (hp : cid ∈ st.placed) :
    cid ∈ (l.foldl registerOne st).tracked ∧ cid ∈ (l.foldl registerOne st).placed := by
  induction l generalizing st with
  | nil => exact ⟨h, hp⟩
  | cons c l ih =>
    obtain ⟨h1, h2⟩ := registerOne_keeps st c cid h hp
    exact ih (registerOne st c) h1 h2

theorem registerOne_tracked_mono (st : SupState) (c cid : String)
    (h : cid ∈ st.tracked) : cid ∈ (registerOne st c).tracked := by
  unfold registerOne
  split
  · exact h
  · exact List.mem_cons_of_mem _ h

theorem registerAll_tracked_mono (l : List String) (st : SupState) (cid : String)
    (h : cid ∈ st.tracked) : cid ∈ (l.foldl registerOne st).tracked := by
  induction l generalizing st with
  | nil => exact h
  | cons c l ih => exact ih (registerOne st c) (registerOne_tracked_mono st c cid h)

theorem registerAll_tracked (l : List String) (st : SupState) (cid : String)
    (h : cid ∈ l) : cid ∈ (l.foldl registerOne st).tracked := by
  induction l generalizing st with
  | nil => cases h
  | cons c l ih =>
    rcases List.mem_cons.mp h with rfl | h2
    · have hc : cid ∈ (registerOne st cid).tracked := by
        unfold registerOne
        split
        · assumption
        · exact List.mem_cons_self _ _
      exact registerAll_tracked_mono l (registerOne st cid) cid hc
    · exact ih (registerOne st c) h2

theorem registerOne_inv (w : String) (st : SupState) (c : String)
    (hinv : PlacementInv w st) : PlacementInv w (registerOne st c) := by
  obtain ⟨h1, h2⟩ := hinv
  constructor
  · rw [registerOne_episodes]
    exact h1
  · intro hge
    rw [registerOne_episodes] at hge
    obtain ⟨hp, ht⟩ := h2 hge
    obtain ⟨ht2, hp2⟩ := registerOne_keeps st c w ht hp
    exact ⟨hp2, ht2⟩

theorem registerAll_inv (w : String) (l : List String) (st : SupState)
    (hinv : PlacementInv w st) : PlacementInv w (l.foldl registerOne st) := by
  induction l generalizing st with
  | nil => exact hinv
  | cons c l ih => exact ih (registerOne st c) (registerOne_inv w st c hinv)

theorem placeStep_tracked (o : TickOracle) (st : SupState) (c : String) :
    (placeStep o st c).tracked = st.tracked := by
  unfold placeStep
  split
  · rfl
  · split
    · rfl
    · split <;> rfl

theorem placeLoop_tracked (o : TickOracle) (l : List String) (st : SupState) :
    (l.foldl (placeStep o) st).tracked = st.tracked := by
  induction l generalizing st with
  | nil => rfl
  | cons c l ih => rw [List.foldl_cons, ih, placeStep_tracked]

theorem placeStep_inv (o : TickOracle) (w : String) (st : SupState) (c : String)
    (hinv : PlacementInv w st) (htr : w = c → w ∈ st.tracked) :
    PlacementInv w (placeStep o st c) := by
  obtain ⟨h1, h2⟩ := hinv
  unfold placeStep
  split
  · exact ⟨h1, h2⟩
  · rename_i hcnot
    split
    · exact ⟨h1, h2⟩
    · split
      · exact ⟨h1, h2⟩
      · by_cases hwc : w = c
        · subst hwc
          have he0 : st.episodes w = 0 := by
            by_contra hne
            exact hcnot ((h2 (Nat.one_le_iff_ne_zero.mpr hne)).1)
          constructor
          · show (if w = w then st.episodes w + 1 else st.episodes w) ≤ 1
            rw [if_pos rfl, he0]
          · intro _
            exact ⟨List.mem_cons_self _ _, htr rfl⟩
        · constructor
          · show (if w = c then st.episodes w + 1 else st.episodes w) ≤ 1
            rw [if_neg hwc]
            exact h1
          · intro hge
            change 1 ≤ if w = c then st.episodes w + 1 else st.episodes w at hge
            rw [if_neg hwc] at hge
            obtain ⟨hp, ht⟩ := h2 hge
            exact ⟨List.mem_cons_of_mem _ hp, ht⟩

theorem orphanClearStep_tracked (st : SupState) (c : String) :
    (orphanClearStep st c).tracked = st.tracked := by
  unfold orphanClearStep
  split <;> rfl

theorem orphanFold_tracked (l : List String) (st : SupState) :
    (l.foldl orphanClearStep st).tracked = st.tracked := by
  induction l generalizing st with
  | nil => rfl
  | cons c l ih => rw [List.foldl_cons, ih, orphanClearStep_tracked]

theorem orphanClearStep_inv (w : String) (st : SupState) (c : String)
    (hinv : PlacementInv w st) : PlacementInv w (orphanClearStep st c) := by
  obtain ⟨h1, h2⟩ := hinv
  unfold orphanClearStep
  split
  · exact ⟨h1, h2⟩
  · rename_i hct
    refine ⟨h1, fun hge => ?_⟩
    obtain ⟨hp, ht⟩ := h2 hge
    have hwc : w ≠ c := fun he => hct (he ▸ ht)
    exact ⟨List.mem_filter.mpr ⟨hp, by simp [hwc]⟩, ht⟩

theorem orphanFold_inv (w : String) (l : List String) (st : SupState)
    (hinv : PlacementInv w st) : PlacementInv w (l.foldl orphanClearStep st) := by
  induction l generalizing st with
  | nil => exact hinv
  | cons c l ih => exact ih (orphanClearStep st c) (orphanClearStep_inv w st c hinv)

theorem placeLoop_inv (o : TickOracle) (w : String) (l : List String) (st : SupState)
    (hinv : PlacementInv w st) (htr : w ∈ l → w ∈ st.tracked) :
    PlacementInv w (l.foldl (placeStep o) st) := by
  induction l generalizing st with
  | nil => exact hinv
  | cons c l ih =>
    refine ih (placeStep o st c)
      (placeStep_inv o w st c hinv (fun he => htr (he ▸ List.mem_cons_self c l))) ?_
    intro hwl
    rw [placeStep_tracked]
    exact htr (List.mem_cons_of_mem c hwl)

theorem fallbackStep_inv (o : TickOracle) (w : String) (st : SupState)
    (hinv : PlacementInv w st) (htr : w ∈ o.discovered → w ∈ st.tracked) :
    PlacementInv w (fallbackStep o st) := by
  obtain ⟨h1, h2⟩ := hinv
  unfold fallbackStep
  split
  · exact ⟨h1, h2⟩
  · rename_i c heq
    split
    · rename_i hdisc
      split
      · exact ⟨h1, h2⟩
      · rename_i hcnot
        split
        · exact ⟨h1, h2⟩
        · split
          · exact ⟨h1, h2⟩
          · by_cases hwc : w = c
            · subst hwc
              have he0 : st.episodes w = 0 := by
                by_contra hne
                exact hcnot ((h2 (Nat.one_le_iff_ne_zero.mpr hne)).1)
              constructor
              · show (if w = w then st.episodes w + 1 else st.episodes w) ≤ 1
                rw [if_pos rfl, he0]
              · intro _
                exact ⟨List.mem_cons_self _ _, htr hdisc⟩
            · constructor
              · show (if w = c then st.episodes w + 1 else st.episodes w) ≤ 1
                rw [if_neg hwc]
                exact h1
              · intro hge
                change 1 ≤ if w = c then st.episodes w + 1 else st.episodes w at hge
                rw [if_neg hwc] at hge
                obtain ⟨hp, ht⟩ := h2 hge
                exact ⟨List.mem_cons_of_mem _ hp, ht⟩
    · exact ⟨h1, h2⟩

theorem cleanupStep_inv (w : String) (st : SupState) (c : String) (hwc : w ≠ c)
    (hinv : PlacementInv w st) : PlacementInv w (cleanupStep st c) := by
  obtain ⟨h1, h2⟩ := hinv
  refine ⟨h1, fun hge => ?_⟩
  obtain ⟨hp, ht⟩ := h2 hge
  exact ⟨List.mem_filter.mpr ⟨hp, by simp [hwc]⟩,
    List.mem_filter.mpr ⟨ht, by simp [hwc]⟩⟩

theorem cleanupFold_inv (w : String) (l : List String) (st : SupState)
    (hw : w ∉ l) (hinv : PlacementInv w st) :
    PlacementInv w (l.foldl cleanupStep st) := by
  induction l generalizing st with
  | nil => exact hinv
  | cons c l ih =>
    have hwc : w ≠ c := fun he => hw (he ▸ List.mem_cons_self c l)
    exact ih (cleanupStep st c) (fun hm => hw (List.mem_cons_of_mem c hm))
      (cleanupStep_inv w st c hwc hinv)

theorem tick_inv (w : String) (st : SupState) (o : TickOracle)
    (hclean : w ∉ o.cleanupRemove) (hinv : PlacementInv w st) :
    PlacementInv w (tick st o) := by
  unfold tick
  have hinv1 := registerAll_inv w o.discovered st hinv
  have htr1 : w ∈ o.discovered → w ∈ (o.discovered.foldl registerOne st).tracked :=
    fun h => registerAll_tracked o.discovered st w h
  have hinv2 := placeLoop_inv o w o.discovered _ hinv1 htr1
  have htr2 : w ∈ o.discovered →
      w ∈ (o.discovered.foldl (placeStep o) (o.discovered.foldl registerOne st)).tracked := by
    rw [placeLoop_tracked]
    exact htr1
  have hinv3 := orphanFold_inv w o.orphanClear _ hinv2
  have htr3 : w ∈ o.discovered →
      w ∈ (o.orphanClear.foldl orphanClearStep
        (o.discovered.foldl (placeStep o) (o.discovered.foldl registerOne st))).tracked := by
    rw [orphanFold_tracked]
    exact htr2
  have hinv4 := fallbackStep_inv o w _ hinv3 htr3
  exact cleanupFold_inv w o.cleanupRemove _ hclean hinv4

theorem runTicks_inv (w : String) (st : SupState) (os : List TickOracle)
    (hclean : ∀ o ∈ os, w ∉ o.cleanupRemove) (hinv : PlacementInv w st) :
    PlacementInv w (runTicks st os) := by
  induction os generalizing st with
  | nil => exact hinv
  | cons o os ih =>
    exact ih (tick st o) (fun x hx => hclean x (List.mem_cons_of_mem o hx))
      (tick_inv w st o (hclean o (List.mem_cons_self o os)) hinv)

end PlacementIdempotence

/-! ## Further supporting lemmas -/

/-- Range of adjustPriceToTick for an effective tick 1/N. -/
theorem adjust_range (N : ℤ) (hN : 2 ≤ N) (hdvd : N ∣ 1000000) (p tq : ℚ)
    (heff : effTick tq = 1 / (N : ℚ)) :
    (1 : ℚ) / (N : ℚ) ≤ adjustPriceToTick p tq ∧
      adjustPriceToTick p tq ≤ 1 - 1 / (N : ℚ) := by
  obtain ⟨s, hs1, hs2, heq⟩ := adjust_closed N hN hdvd p tq heff
  rw [heq]
  have hNpos : (0 : ℚ) < (N : ℚ) := by exact_mod_cast (by omega : (0:ℤ) < N)
  constructor
  · rw [div_le_div_iff_of_pos_right hNpos]
    exact_mod_cast hs1
  · have hr : (1 : ℚ) - 1 / (N : ℚ) = ((N : ℚ) - 1) / (N : ℚ) := by field_simp
    rw [hr, div_le_div_iff_of_pos_right hNpos]
    have : (s : ℚ) ≤ ((N - 1 : ℤ) : ℚ) := by exact_mod_cast hs2
    push_cast at this
    linarith

/-- Idempotence of adjustPriceToTick at a tick equal to 1/N. -/
theorem adjust_idem_ofEq (N : ℤ) (hN : 2 ≤ N) (hdvd : N ∣ 1000000) (p t : ℚ)
    (ht : t = 1 / (N : ℚ)) :
    adjustPriceToTick (adjustPriceToTick p t) t = adjustPriceToTick p t := by
  have hNpos : (0 : ℚ) < (N : ℚ) := by exact_mod_cast (by omega : (0:ℤ) < N)
  refine adjust_idem_unit N hN hdvd p t ?_
  rw [effTick_of_pos t (by rw [ht]; positivity), ht]

/-! ## Claim theorems -/

/-- C1: the save-load round trip of order records is claimed to agree on
every field, in particular on cost_usd, revenue_usd and pnl_usd.  Evaluating
the embedded serializeOrder/parseOrderRecord pair on a persisted BUY order
shows the three accounting fields come back nil while every other field
round-trips: parseOrderRecord never assigns them. -/
theorem c1_roundtrip_drops_accounting :
    (parseOrderRecord (serializeOrder sampleBuyOrder)).costUSD = none ∧
    (parseOrderRecord (serializeOrder sampleBuyOrder)).revenueUSD = none ∧
    (parseOrderRecord (serializeOrder sampleBuyOrder)).pnlUSD = none ∧
    sampleBuyOrder.costUSD = some 5 ∧
    sampleBuyOrder.revenueUSD = some 0 ∧
    sampleBuyOrder.pnlUSD = some (-5) ∧
    (parseOrderRecord (serializeOrder sampleBuyOrder)).orderID = sampleBuyOrder.orderID ∧
    (parseOrderRecord (serializeOrder sampleBuyOrder)).price = sampleBuyOrder.price ∧
    (parseOrderRecord (serializeOrder sampleBuyOrder)).size = sampleBuyOrder.size ∧
    (parseOrderRecord (serializeOrder sampleBuyOrder)).status = sampleBuyOrder.status ∧
    (parseOrderRecord (serializeOrder sampleBuyOrder)).createdAt = sampleBuyOrder.createdAt ∧
    (parseOrderRecord (serializeOrder sampleBuyOrder)).strategy = sampleBuyOrder.strategy ∧
    parseOrderRecord (serializeOrder sampleBuyOrder) ≠ sampleBuyOrder := by
  refine ⟨rfl, rfl, rfl, rfl, rfl, rfl, rfl, rfl, rfl, rfl, rfl, by decide, ?_⟩
  intro h
  have h2 := congrArg OrderRecord.costUSD h
  change (none : Option ℚ) = some 5 at h2
  exact Option.noConfusion h2

/-- C2: after a submission batch, verifyOrdersInOrderbook maps the order at
each position to PLACED with the error cleared when its id is in the active
set built from the exchange's open orders, and to FAILED with size,
size_usd, cost_usd, revenue_usd, pnl_usd zeroed and a diagnostic preserved
or set when it is not. -/
theorem c2_verify_marks_placed_or_failed (openOrders : List (Option JVal))
    (orders : List OrderRecord) (i : ℕ) (o : OrderRecord)
    (ho : orders[i]? = some o) :
    ∃ r, (verifyOrdersInOrderbook (some openOrders) orders)[i]? = some r ∧
      (o.orderID ∈ activeIds openOrders →
        r.status = "PLACED" ∧ r.errorMessage = none ∧ r.size = o.size ∧
        r.sizeUSD = o.sizeUSD ∧ r.costUSD = o.costUSD ∧
        r.revenueUSD = o.revenueUSD ∧ r.pnlUSD = o.pnlUSD) ∧
      (o.orderID ∉ activeIds openOrders →
        r.status = "FAILED" ∧ r.size = 0 ∧ r.sizeUSD = 0 ∧
        r.costUSD = some 0 ∧ r.revenueUSD = some 0 ∧ r.pnlUSD = some 0 ∧
        r.errorMessage = (match o.errorMessage with
          | none => some "Order not found in orderbook after placement"
          | some msg => some msg)) := by
  simp only [verifyOrdersInOrderbook]
  rw [List.getElem?_map, ho, Option.map_some']
  by_cases hmem : o.orderID ∈ activeIds openOrders
  · exact ⟨_, rfl, fun _ => by
      rw [if_pos hmem]
      exact ⟨rfl, rfl, rfl, rfl, rfl, rfl, rfl⟩,
      fun hn => absurd hmem hn⟩
  · exact ⟨_, rfl, fun hy => absurd hy hmem, fun _ => by
      rw [if_neg hmem]
      exact ⟨rfl, rfl, rfl, rfl, rfl, rfl, rfl⟩⟩

/-- C2 witness at a concrete batch and open-order list. -/
theorem c2_witness :
    ([sampleBuyOrder][0]? = some sampleBuyOrder) ∧
    (∃ r, (verifyOrdersInOrderbook (some [some (.jstr "0xorder1")])
        [sampleBuyOrder])[0]? = some r ∧
      (sampleBuyOrder.orderID ∈ activeIds [some (.jstr "0xorder1")] →
        r.status = "PLACED" ∧ r.errorMessage = none ∧ r.size = sampleBuyOrder.size ∧
        r.sizeUSD = sampleBuyOrder.sizeUSD ∧ r.costUSD = sampleBuyOrder.costUSD ∧
        r.revenueUSD = sampleBuyOrder.revenueUSD ∧ r.pnlUSD = sampleBuyOrder.pnlUSD) ∧
      (sampleBuyOrder.orderID ∉ activeIds [some (.jstr "0xorder1")] →
        r.status = "FAILED" ∧ r.size = 0 ∧ r.sizeUSD = 0 ∧
        r.costUSD = some 0 ∧ r.revenueUSD = some 0 ∧ r.pnlUSD = some 0 ∧
        r.errorMessage = (match sampleBuyOrder.errorMessage with
          | none => some "Order not found in orderbook after placement"
          | some msg => some msg))) :=
  ⟨rfl, c2_verify_marks_placed_or_failed [some (.jstr "0xorder1")]
    [sampleBuyOrder] 0 sampleBuyOrder rfl⟩

/-- C3: over any whole run of supervisor ticks in which the watched market
group stays alive (its cid is never removed by housekeeping), the number of
record-producing strategy placements for that cid — main step and idle
fallback paths combined — is at most one: ordersPlaced[cid] is set whenever
a submission produced any order record and is never cleared while the group
is alive. -/
theorem c3_placement_at_most_once (init : SupState) (run : List TickOracle)
    (cid : String) (h0 : init.episodes cid = 0)
    (halive : ∀ o ∈ run, cid ∉ o.cleanupRemove) :
    (runTicks init run).episodes cid ≤ 1 := by
  have hinv : PlacementInv cid init := by
    constructor
    · rw [h0]
      omega
    · intro h
      rw [h0] at h
      exact absurd h (by omega)
  exact (runTicks_inv cid init run halive hinv).1

/-- A tick in which the watched market is discovered and its strategy
placement returns two records. -/
def c3TickA : TickOracle :=
  { discovered := ["0xcid"]
    place := fun _ => .records 2
    orphanClear := []
    fbCandidate := none
    fbPlace := fun _ => .err
    cleanupRemove := [] }

/-- The empty initial supervisor state. -/
def c3Init : SupState := { tracked := [], placed := [], episodes := fun _ => 0 }

/-- C3 witness: two consecutive ticks that both try to place for the same
market yield at most one record-producing episode. -/
theorem c3_witness :
    c3Init.episodes "0xcid" = 0 ∧
    (runTicks c3Init [c3TickA, c3TickA]).episodes "0xcid" ≤ 1 :=
  ⟨rfl, c3_placement_at_most_once c3Init [c3TickA, c3TickA] "0xcid" rfl (by
    intro o ho
    rcases List.mem_cons.mp ho with rfl | ho2
    · exact List.not_mem_nil _
    · rcases List.mem_cons.mp ho2 with rfl | ho3
      · exact List.not_mem_nil _
      · cases ho3)⟩

/-- C4: for a market whose two outcome balances are positive and whose
mergeable remainder min(yes, no) - merged_amounts exceeds 0.001, a
successful run of mergePositionsIfPossible calls merge_positions with the
remainder scaled to 6 decimals, adds exactly the remainder to
merged_amounts, and the synthetic MERGE record carries revenue_usd =
pnl_usd = merged units and cost_usd = 0. -/
theorem c4_merge_amount_and_record (env : MergeEnv) (cid slug : String)
    (now : ℤ) (yb nb : ℤ)
    (hytok : env.yesToken ≠ "") (hntok : env.noToken ≠ "")
    (hyb : env.yesBal = some yb) (hnb : env.noBal = some nb)
    (hypos : 0 < toFloat6 yb) (hnpos : 0 < toFloat6 nb)
    (hgap : 1/1000 < min (toFloat6 yb) (toFloat6 nb) - env.mergedAlready)
    (hcid : env.conditionIDOk = true) (htx : env.mergeTxOk = true) :
    mergePositionsIfPossible env =
      ⟨min (toFloat6 yb) (toFloat6 nb) - env.mergedAlready,
       some (truncInt64 ((min (toFloat6 yb) (toFloat6 nb) - env.mergedAlready)
         * 1000000)),
       env.mergedAlready + (min (toFloat6 yb) (toFloat6 nb) - env.mergedAlready)⟩ ∧
    (trackMerge cid slug (min (toFloat6 yb) (toFloat6 nb) - env.mergedAlready)
      now).revenueUSD = some (min (toFloat6 yb) (toFloat6 nb) - env.mergedAlready) ∧
    (trackMerge cid slug (min (toFloat6 yb) (toFloat6 nb) - env.mergedAlready)
      now).pnlUSD = some (min (toFloat6 yb) (toFloat6 nb) - env.mergedAlready) ∧
    (trackMerge cid slug (min (toFloat6 yb) (toFloat6 nb) - env.mergedAlready)
      now).costUSD = some 0 ∧
    (trackMerge cid slug (min (toFloat6 yb) (toFloat6 nb) - env.mergedAlready)
      now).transactionType = "MERGE" := by
  refine ⟨?_, rfl, rfl, rfl, rfl⟩
  unfold mergePositionsIfPossible
  rw [if_neg (by push_neg; exact ⟨hytok, hntok⟩), hyb, hnb]
  simp only []
  rw [if_neg (by push_neg; exact ⟨hypos, hnpos⟩),
    if_neg (not_le.mpr hgap), if_neg (by simp [hcid]),
    if_neg (by simp [htx])]

/-- The C4 scenario of the spec: wallet yes = 6.2, no = 6.5 units and
nothing merged yet. -/
def c4Env : MergeEnv :=
  { yesToken := "11111"
    noToken := "22222"
    yesBal := some 6200000
    noBal := some 6500000
    mergedAlready := 0
    conditionIDOk := true
    mergeTxOk := true }

/-- C4 witness: at the spec's example the merge amount is 6.2 sets, the
on-chain call receives 6200000 units, and the MERGE record books 6.2. -/
theorem c4_witness :
    (1/1000 : ℚ) < min (toFloat6 6200000) (toFloat6 6500000) - c4Env.mergedAlready ∧
    (mergePositionsIfPossible c4Env =
      ⟨min (toFloat6 6200000) (toFloat6 6500000) - c4Env.mergedAlready,
       some (truncInt64 ((min (toFloat6 6200000) (toFloat6 6500000)
         - c4Env.mergedAlready) * 1000000)),
       c4Env.mergedAlready + (min (toFloat6 6200000) (toFloat6 6500000)
         - c4Env.mergedAlready)⟩ ∧
     (trackMerge "0xcond1" "slug" (min (toFloat6 6200000) (toFloat6 6500000)
       - c4Env.mergedAlready) 1700000000).revenueUSD
       = some (min (toFloat6 6200000) (toFloat6 6500000) - c4Env.mergedAlready) ∧
     (trackMerge "0xcond1" "slug" (min (toFloat6 6200000) (toFloat6 6500000)
       - c4Env.mergedAlready) 1700000000).pnlUSD
       = some (min (toFloat6 6200000) (toFloat6 6500000) - c4Env.mergedAlready) ∧
     (trackMerge "0xcond1" "slug" (min (toFloat6 6200000) (toFloat6 6500000)
       - c4Env.mergedAlready) 1700000000).costUSD = some 0 ∧
     (trackMerge "0xcond1" "slug" (min (toFloat6 6200000) (toFloat6 6500000)
       - c4Env.mergedAlready) 1700000000).transactionType = "MERGE") ∧
    truncInt64 ((min (toFloat6 6200000) (toFloat6 6500000)
      - c4Env.mergedAlready) * 1000000) = 6200000 :=
  ⟨by norm_num [toFloat6, c4Env, min_def],
   c4_merge_amount_and_record c4Env "0xcond1" "slug" 1700000000 6200000 6500000
     (by decide) (by decide) rfl rfl (by norm_num [toFloat6])
     (by norm_num [toFloat6])
     (by norm_num [toFloat6, c4Env, min_def]) rfl rfl,
   by norm_num [truncInt64, toFloat6, c4Env, min_def]⟩

/-- C5 counterexample: a live market with end_ts exactly now - 300 (and
start_ts far inside the window) satisfies the claimed filter condition
end_ts ≥ now - 300 ∧ start_ts ≤ now + 86400 yet is dropped by
filterUpcoming, whose end test is strict. -/
theorem c5_boundary_market_excluded :
    filterUpcoming [boundaryMarket] 1700000000 = [] ∧
    boundaryMarket.endTS = 1700000000 - 300 ∧
    boundaryMarket.startTS ≤ 1700000000 + 86400 ∧
    boundaryMarket.isResolved = false := by
  have hkeep : filterUpcomingKeep boundaryMarket 1700000000 = false := by decide
  refine ⟨?_, by decide, by decide, rfl⟩
  unfold filterUpcoming
  rw [show List.filter (fun m => filterUpcomingKeep m 1700000000) [boundaryMarket]
    = [] from by simp [hkeep]]
  exact List.mergeSort_nil

/-- C5 (amended): a discovered market is kept by filterUpcoming iff it is
not resolved, end_ts - now > -300 strictly (so end_ts = now - 300 is
excluded), and start_ts - now ≤ 86400. -/
theorem c5_filter_membership (markets : List Market) (nowTs : ℤ) (m : Market) :
    m ∈ filterUpcoming markets nowTs ↔
      m ∈ markets ∧ m.isResolved = false ∧
      m.endTS - nowTs > -300 ∧ m.startTS - nowTs ≤ 86400 := by
  unfold filterUpcoming
  rw [List.mem_mergeSort, List.mem_filter]
  unfold filterUpcomingKeep
  constructor
  · rintro ⟨hm, hk⟩
    refine ⟨hm, ?_, ?_, ?_⟩ <;>
      (revert hk; cases hr : m.isResolved <;> simp [hr] <;> omega)
  · rintro ⟨hm, hr, he, hs⟩
    exact ⟨hm, by simp [hr]; omega⟩

/-- C6 counterexample: with the CLOB client initialized and a wallet
present, a reported USDC balance of 0 — which is below the required
2·order_size_usd = 20 — does not fail the placement: the precheck lets it
proceed, because the Go guard is bal > 0 && bal < required. -/
theorem c6_zero_balance_passes :
    placeLiquidityOrdersPrecheck
      { clobInitialized := true, address := "0xwallet",
        usdcBalance := 0, orderSizeUSD := 10 } = .proceed ∧
    (0 : ℚ) < 10 * 2 := by
  constructor
  · rfl
  · norm_num

/-- C6 (amended): with the client initialized and a wallet address present,
placeLiquidityOrders aborts with the insufficient-balance error iff
0 < usdc_balance < 2·order_size_usd; a reported balance of 0 (including a
failed balance fetch, whose error is discarded) skips the check and the
placement proceeds. -/
theorem c6_precheck_iff (env : LiquidityEnv)
    (hclob : env.clobInitialized = true) (haddr : env.address ≠ "") :
    placeLiquidityOrdersPrecheck env = .errInsufficientBalance ↔
      (0 < env.usdcBalance ∧ env.usdcBalance < env.orderSizeUSD * 2) := by
  unfold placeLiquidityOrdersPrecheck
  rw [hclob]
  simp only [Bool.true_eq_false, if_false, if_neg haddr]
  split_ifs with h
  · exact iff_of_true rfl h
  · exact iff_of_false not_false h

/-- C6 witness: balance 5 against order size 10 aborts with the
insufficient-balance error. -/
theorem c6_witness :
    ((true : Bool) = true) ∧ ("0xwallet" ≠ "") ∧
    (placeLiquidityOrdersPrecheck
        { clobInitialized := true, address := "0xwallet",
          usdcBalance := 5, orderSizeUSD := 10 } = .errInsufficientBalance ↔
      ((0:ℚ) < 5 ∧ (5:ℚ) < 10 * 2)) :=
  ⟨rfl, by decide,
   c6_precheck_iff
     { clobInitialized := true, address := "0xwallet",
       usdcBalance := 5, orderSizeUSD := 10 } rfl (by decide)⟩

/-- C7: the spec requires an upstream event missing condition_id to be
dropped, but parseMarket keeps it: the absent key stringifies to the
five-character text &lt;nil&gt; (Go fmt of a nil interface), which passes the
emptiness check, and a Market whose condition id is that text is produced,
with start/end recovered from the slug digits.  This holds for every
time.Parse / json.Unmarshal oracle since neither is reached. -/
theorem c7_missing_condition_id_still_parses (lib : GoLib) :
    parseMarket lib eventMissingConditionID =
      some { conditionID := "<nil>"
             marketSlug := "btc-updown-15m-1700000000"
             question := "q"
             startTS := 1700000000
             endTS := 1700000900
             outcomes := []
             isActive := false
             isResolved := false } := rfl

/-- C8: snapping a price to one of the four supported tick sizes is
idempotent: adjustPriceToTick(adjustPriceToTick(p, t), t) =
adjustPriceToTick(p, t). -/
theorem c8_tick_snap_idempotent (p t : ℚ)
    (ht : t = 1/10 ∨ t = 1/100 ∨ t = 1/1000 ∨ t = 1/10000) :
    adjustPriceToTick (adjustPriceToTick p t) t = adjustPriceToTick p t := by
  rcases ht with h | h | h | h
  · exact adjust_idem_ofEq 10 (by norm_num) (by norm_num) p t (by rw [h]; norm_num)
  · exact adjust_idem_ofEq 100 (by norm_num) (by norm_num) p t (by rw [h]; norm_num)
  · exact adjust_idem_ofEq 1000 (by norm_num) (by norm_num) p t (by rw [h]; norm_num)
  · exact adjust_idem_ofEq 10000 (by norm_num) (by norm_num) p t (by rw [h]; norm_num)

/-- C8 witness at price 0.567 and tick 0.01. -/
theorem c8_witness :
    ((1:ℚ)/100 = 1/10 ∨ (1:ℚ)/100 = 1/100 ∨ (1:ℚ)/100 = 1/1000 ∨
      (1:ℚ)/100 = 1/10000) ∧
    adjustPriceToTick (adjustPriceToTick (567/1000) (1/100)) (1/100) =
      adjustPriceToTick (567/1000) (1/100) :=
  ⟨Or.inr (Or.inl rfl),
   c8_tick_snap_idempotent (567/1000) (1/100) (Or.inr (Or.inl rfl))⟩

/-- C9: when fetching the open-orders list fails, verifyOrdersInOrderbook
returns the submitted batch completely unchanged, so a transport error can
never mark an order FAILED. -/
theorem c9_transport_error_leaves_batch (orders : List OrderRecord) :
    verifyOrdersInOrderbook none orders = orders := rfl

/-- C10 counterexample: the claim asserts range safety for every tick, but
at tick 0.35 (positive, so the effective tick is 0.35 itself) the price
0.65 = 1 - 0.35 snaps up to 0.7, outside [0.35, 0.65]: the round-to-step
can overshoot when 1/tick is not an integer. -/
theorem c10_out_of_range :
    effTick (35/100) = 35/100 ∧
    adjustPriceToTick (65/100) (35/100) = 7/10 ∧
    ¬ ((7:ℚ)/10 ≤ 1 - 35/100) := by
  refine ⟨by norm_num [effTick], ?_, by norm_num⟩
  show ((goRound ((goRound (seqClamp (65/100) (effTick (35/100))
      (1 - effTick (35/100)) / effTick (35/100)) : ℚ) * effTick (35/100)
      * 1000000) : ℚ)) / 1000000 = 7/10
  have he : effTick (35/100) = 35/100 := by norm_num [effTick]
  rw [he]
  have hc : seqClamp (65/100) (35/100) (1 - 35/100) = 65/100 := by
    norm_num [seqClamp]
  rw [hc]
  have h1 : ((65:ℚ)/100) / (35/100) = 13/7 := by norm_num
  rw [h1]
  have h2 : goRound (13/7) = 2 := by
    unfold goRound
    rw [if_pos (by norm_num)]
    norm_num [Int.floor_eq_iff]
  rw [h2]
  have h3 : ((2:ℤ):ℚ) * (35/100) * 1000000 = ((700000 : ℤ) : ℚ) := by norm_num
  rw [h3, goRound_intCast]
  norm_num

/-- C10 (amended): a tick ≤ 0 is replaced by 0.01; whenever the effective
tick is one of the exchange's supported tick sizes (the hypothesis says the
tick-size string parses to it), the snapped price lies in
[tick, 1 - tick] and passes priceValid.  For other positive ticks the
result can leave the range (see the counterexample). -/
theorem c10_supported_tick_range_safe (p tq : ℚ) (ts : String)
    (h : parseTick ts = some (effTick tq)) :
    (tq ≤ 0 → effTick tq = 1/100) ∧
    priceValid (adjustPriceToTick p tq) ts = true := by
  constructor
  · intro hle
    unfold effTick
    rw [if_pos hle]
  · have hmem : effTick tq = (1:ℚ)/10 ∨ effTick tq = 1/100 ∨
        effTick tq = 1/1000 ∨ effTick tq = 1/10000 := by
      unfold parseTick at h
      split_ifs at h <;> simp_all
    have hbounds : effTick tq ≤ adjustPriceToTick p tq ∧
        adjustPriceToTick p tq ≤ 1 - effTick tq := by
      rcases hmem with he | he | he | he
      · have hb := adjust_range 10 (by norm_num) (by norm_num) p tq
          (by rw [he]; norm_num)
        rw [he]
        constructor
        · calc (1:ℚ)/10 = 1/((10:ℤ):ℚ) := by norm_num
            _ ≤ _ := hb.1
        · calc adjustPriceToTick p tq ≤ 1 - 1/((10:ℤ):ℚ) := hb.2
            _ = 1 - 1/10 := by norm_num
      · have hb := adjust_range 100 (by norm_num) (by norm_num) p tq
          (by rw [he]; norm_num)
        rw [he]
        constructor
        · calc (1:ℚ)/100 = 1/((100:ℤ):ℚ) := by norm_num
            _ ≤ _ := hb.1
        · calc adjustPriceToTick p tq ≤ 1 - 1/((100:ℤ):ℚ) := hb.2
            _ = 1 - 1/100 := by norm_num
      · have hb := adjust_range 1000 (by norm_num) (by norm_num) p tq
          (by rw [he]; norm_num)
        rw [he]
        constructor
        · calc (1:ℚ)/1000 = 1/((1000:ℤ):ℚ) := by norm_num
            _ ≤ _ := hb.1
        · calc adjustPriceToTick p tq ≤ 1 - 1/((1000:ℤ):ℚ) := hb.2
            _ = 1 - 1/1000 := by norm_num
      · have hb := adjust_range 10000 (by norm_num) (by norm_num) p tq
          (by rw [he]; norm_num)
        rw [he]
        constructor
        · calc (1:ℚ)/10000 = 1/((10000:ℤ):ℚ) := by norm_num
            _ ≤ _ := hb.1
        · calc adjustPriceToTick p tq ≤ 1 - 1/((10000:ℤ):ℚ) := hb.2
            _ = 1 - 1/10000 := by norm_num
    unfold priceValid
    rw [h]
    rw [decide_eq_true_eq]
    exact hbounds

/-- C10 witness: tick 0 is replaced by 0.01 and the snapped price passes
the exchange's validity check for the 0.01 tick-size string. -/
theorem c10_witness :
    parseTick "0.01" = some (effTick 0) ∧
    (((0:ℚ) ≤ 0 → effTick 0 = 1/100) ∧
      priceValid (adjustPriceToTick (1/2) 0) "0.01" = true) := by
  have hp : parseTick "0.01" = some (effTick 0) := by
    have h1 : effTick 0 = 1/100 := by norm_num [effTick]
    rw [h1]
    simp [parseTick]
  exact ⟨hp, c10_supported_tick_range_safe (1/2) 0 "0.01" hp⟩

end NiceBot
